import Mathlib

/-!
Verification of the format-removal registry and toggle button of
`src/ts/editor/editor-toolbar/RemoveFormatButton.svelte`.

The component keeps an ordered registry of removable-format descriptors
(a Svelte store holding an array), derives from it the ordered key lists
`activeKeys` / `inactiveKeys` and the list `showFormats` of visible
entries, and mutates `active` flags through `onItemClick`.  We embed the
registry as a `List RemoveFormat` and each handler as a function on that
list; the reactive (`$:`) derived views become plain functions of the
current registry state, which is exactly Svelte's semantics for them
(recomputed from the store before the next read).
-/

namespace RemoveFormatButton

/-- The part of a DOM element inspected by `matcher`:
`element.tagName`, `element.className` (the `class` attribute content)
and `element.style.cssText` (the serialized inline style). -/
structure Element where
  tagName : String
  className : String
  cssText : String
deriving DecidableEq, Repr

/-- Embedding of the `matcher` function: it calls `match.remove()`
(here: returns `true`) exactly when the guard of its single `if` holds.

```
if (element.tagName === "SPAN" &&
    element.className.length === 0 &&
    element.style.cssText.length === 0) { match.remove(); }
```
-/
def matcher (element : Element) : Bool :=
  element.tagName == "SPAN" &&
    element.className.length == 0 &&
    element.cssText.length == 0

/-- Modelled from the spec: the `RemoveFormat` interface is declared in
`EditorToolbar.svelte`, which is not among the sources; its attributes
follow spec §3 (`key`, `name`, `show`, `active`, `matcher`,
`surroundElement`).  `show` is a Lean keyword, so the field is `show'`.
The matcher is represented by its removal decision (`Element → Bool`)
and the surround element by its tag name. -/
structure RemoveFormat where
  key : String
  name : String
  show' : Bool
  active : Bool
  matcher : Element → Bool
  surroundElement : String

instance : Inhabited RemoveFormat :=
  ⟨⟨"", "", false, false, fun _ => false, ""⟩⟩

/-- `$: activeKeys = $removeFormats.filter((format) => format.active).map((format) => format.key)` -/
def activeKeys (formats : List RemoveFormat) : List String :=
  (formats.filter (fun format => format.active)).map (fun format => format.key)

/-- `$: inactiveKeys = $removeFormats.filter((format) => !format.active).map((format) => format.key)` -/
def inactiveKeys (formats : List RemoveFormat) : List String :=
  (formats.filter (fun format => !format.active)).map (fun format => format.key)

/-- `$: showFormats = $removeFormats.filter((format) => format.show)` -/
def showFormats (formats : List RemoveFormat) : List RemoveFormat :=
  formats.filter (fun format => format.show')

/-- `function remove(): void { surrounder.remove(activeKeys, inactiveKeys); }` —
the pair of key lists handed to the external Surrounder, read from the
reactive views of the registry state current at the call. -/
def remove (formats : List RemoveFormat) : List String × List String :=
  (activeKeys formats, inactiveKeys formats)

/-- In-place update of the array cell at index `i` (out-of-range: no-op),
the functional rendering of mutating one element of the store's array. -/
def modifyNth (f : RemoveFormat → RemoveFormat) : Nat → List RemoveFormat → List RemoveFormat
  | _, [] => []
  | 0, a :: as => f a :: as
  | n + 1, a :: as => a :: modifyNth f n as

/-- The loop body `format.active = false` applied to every visible entry:
`for (const format of showFormats) { format.active = false; }`.
`showFormats` aliases the store's own objects, so the loop amounts to
clearing `active` on every `show` entry of the registry. -/
def clearVisible (formats : List RemoveFormat) : List RemoveFormat :=
  formats.map (fun format =>
    if format.show' then { format with active := false } else format)

/-- `format.active = !format.active` on the clicked entry. -/
def flipActive (format : RemoveFormat) : RemoveFormat :=
  { format with active := !format.active }

/-- Embedding of `onItemClick(event, format)`; `alt` is `altPressed(event)`
and the clicked entry is identified by its index `i` in the registry.

```
if (altPressed(event)) {
    for (const format of showFormats) { format.active = false; }
}
format.active = !format.active;
$removeFormats = $removeFormats;
```
-/
def onItemClick (alt : Bool) (i : Nat) (formats : List RemoveFormat) : List RemoveFormat :=
  let formats := if alt then clearVisible formats else formats
  modifyNth flipActive i formats

/-- The entry appended at component initialization:

```
removeFormats.update((formats) =>
    formats.concat({ key, name: key, show: false, active: true }));
```

with `key = "simple spans"`.  The registry literal carries no matcher or
surround element; in the model those two fields take the component's own
`matcher` and the `document.createElement("span")` element that are
registered with the Surrounder under the same key. -/
def builtin : RemoveFormat :=
  { key := "simple spans"
    name := "simple spans"
    show' := false
    active := true
    matcher := matcher
    surroundElement := "span" }

/-- `removeFormats.update((formats) => formats.concat({...}))` — JS
`Array.concat` with a single non-array argument appends that element. -/
def registerBuiltin (formats : List RemoveFormat) : List RemoveFormat :=
  formats ++ [builtin]

/-- The operations that mutate the registry during a session: a control
registering an entry (`removeFormats.update` appending), a dropdown item
click (`onItemClick`), and the checkbox binding writing an entry's
`active` flag directly (`<Checkbox bind:value={format.active} />`). -/
inductive Op where
  | register : RemoveFormat → Op
  | click : Bool → Nat → Op
  | setActive : Nat → Bool → Op

/-- One registry mutation. -/
def applyOp (formats : List RemoveFormat) : Op → List RemoveFormat
  | .register f => formats ++ [f]
  | .click alt i => onItemClick alt i formats
  | .setActive i b => modifyNth (fun f => { f with active := b }) i formats

/-- A sequence of registry mutations, applied in order. -/
def run (formats : List RemoveFormat) (ops : List Op) : List RemoveFormat :=
  ops.foldl applyOp formats

/-- `onMount`: `surrounder.active.subscribe((value) => (disabled = !value))` —
the subscriber overwrites `disabled` with the negation of the emitted
value, using no other state.  `disabledAfter es` is the `disabled`
variable after the emissions `es` (uninitialized before the first one). -/
def disabledAfter (emissions : List Bool) : Option Bool :=
  emissions.foldl (fun _ value => some (!value)) none

/-- A concrete format descriptor for examples: key and name `k`,
visibility `sh`, activation `ac`. -/
def fmt (k : String) (sh ac : Bool) : RemoveFormat :=
  { key := k, name := k, show' := sh, active := ac
    matcher := fun _ => false, surroundElement := "span" }

/-- All fields of an entry except the mutable `active` flag. -/
def frameFields (f : RemoveFormat) :
    String × String × Bool × (Element → Bool) × String :=
  (f.key, f.name, f.show', f.matcher, f.surroundElement)

theorem onItemClick_true_eq (i : Nat) (formats : List RemoveFormat) :
    onItemClick true i formats = modifyNth flipActive i (clearVisible formats) := rfl

theorem onItemClick_false_eq (i : Nat) (formats : List RemoveFormat) :
    onItemClick false i formats = modifyNth flipActive i formats := rfl

theorem modifyNth_length (f : RemoveFormat → RemoveFormat) (n : Nat)
    (l : List RemoveFormat) : (modifyNth f n l).length = l.length := by
  induction l generalizing n with
  | nil => cases n <;> rfl
  | cons a as ih =>
    cases n with
    | zero => simp [modifyNth]
    | succ m => simpa [modifyNth] using ih m

theorem getElem?_modifyNth_self (f : RemoveFormat → RemoveFormat) (n : Nat)
    (l : List RemoveFormat) : (modifyNth f n l)[n]? = (l[n]?).map f := by
  induction l generalizing n with
  | nil => cases n <;> simp [modifyNth]
  | cons a as ih =>
    cases n with
    | zero => simp [modifyNth]
    | succ m => simpa [modifyNth] using ih m

theorem getElem?_modifyNth_ne (f : RemoveFormat → RemoveFormat) {n j : Nat}
    (h : j ≠ n) (l : List RemoveFormat) : (modifyNth f n l)[j]? = l[j]? := by
  induction l generalizing n j with
  | nil => cases n <;> rfl
  | cons a as ih =>
    cases n with
    | zero =>
      cases j with
      | zero => exact absurd rfl h
      | succ m => simp [modifyNth]
    | succ k =>
      cases j with
      | zero => simp [modifyNth]
      | succ m =>
        have hm : m ≠ k := fun hc => h (by rw [hc])
        simpa [modifyNth] using ih hm

theorem modifyNth_map_frameFields (g : RemoveFormat → RemoveFormat)
    (hg : ∀ x, frameFields (g x) = frameFields x) (n : Nat) (l : List RemoveFormat) :
    (modifyNth g n l).map frameFields = l.map frameFields := by
  induction l generalizing n with
  | nil => cases n <;> rfl
  | cons a as ih =>
    cases n with
    | zero => simp [modifyNth, hg a]
    | succ m => simpa [modifyNth] using ih m

theorem clearVisible_map_frameFields (l : List RemoveFormat) :
    (clearVisible l).map frameFields = l.map frameFields := by
  induction l with
  | nil => rfl
  | cons a as ih =>
    by_cases h : a.show' = true <;>
      simp [clearVisible, frameFields, h] at ih ⊢ <;> exact ih

/-- C1: For every element passed to the built-in matcher, it signals
removal (calls `match.remove()`) if and only if the element's tag is
span (DOM `tagName` `"SPAN"`) and its class attribute content is empty
and its inline style content is empty; otherwise it performs no action. -/
theorem matcher_removes_iff (e : Element) :
    matcher e = true ↔ e.tagName = "SPAN" ∧ e.className = "" ∧ e.cssText = "" := by
  simp only [matcher, Bool.and_eq_true, beq_iff_eq, Nat.beq_eq_true_eq]
  constructor
  · rintro ⟨⟨htag, hclass⟩, hstyle⟩
    refine ⟨htag, ?_, ?_⟩
    · cases hc : e.className with
      | mk data =>
        rw [hc] at hclass
        cases data with
        | nil => rfl
        | cons c cs => simp [String.length, hc] at hclass
    · cases hs : e.cssText with
      | mk data =>
        rw [hs] at hstyle
        cases data with
        | nil => rfl
        | cons c cs => simp [String.length, hs] at hstyle
  · rintro ⟨htag, hclass, hstyle⟩
    rw [htag, hclass, hstyle]
    exact ⟨⟨rfl, rfl⟩, rfl⟩

/-- C2: With the modifier held, `onItemClick` first sets `active = false`
on every visible (`show = true`) entry, irrespective of which entry was
clicked, and then flips the clicked entry's `active` flag; in
particular, for visible entries `A(active=true)`, `B(active=true)`,
`C(active=false)`, a modifier-click on `A` yields
`A(active=true), B(active=false), C(active=false)`. -/
theorem onItemClick_alt_clears_then_flips (formats : List RemoveFormat) (i : Nat) :
    onItemClick true i formats = modifyNth flipActive i (clearVisible formats)
    ∧ (∀ (j : Nat), ((clearVisible formats)[j]?).map (fun f => f.active)
        = (formats[j]?).map (fun f => !f.show' && f.active))
    ∧ (onItemClick true 0 [fmt "A" true true, fmt "B" true true, fmt "C" true false]).map
        (fun f => (f.key, f.active))
      = [("A", true), ("B", false), ("C", false)] := by
  refine ⟨rfl, ?_, by decide⟩
  intro j
  rw [clearVisible, List.getElem?_map]
  cases formats[j]? with
  | none => rfl
  | some f =>
    by_cases h : f.show' = true <;> simp [h]

/-- C3 counterexample: a single visible entry `A` with `active = true`
before the click; a modifier-click on `A` leaves its `active` flag
`true`, not the negation (`false`) of its pre-click value, refuting the
claim that the clicked entry ends at the negation of its prior value. -/
theorem onItemClick_alt_not_inverting :
    (fmt "A" true true).active = true
    ∧ (onItemClick true 0 [fmt "A" true true]).map (fun f => f.active) = [true]
    ∧ (onItemClick true 0 [fmt "A" true true]).map (fun f => f.active)
        ≠ [!(fmt "A" true true).active] := by
  decide

/-- C3 (amended): with the modifier held and a visible clicked entry,
the net effect is that every other visible entry is deactivated and the
clicked entry's `active` flag ends up `true` regardless of its pre-click
value (it is first cleared with the other visible entries, then
flipped). -/
theorem onItemClick_alt_net_effect (formats : List RemoveFormat) (i : Nat)
    (f : RemoveFormat) (hf : formats[i]? = some f) (hshow : f.show' = true) :
    ((onItemClick true i formats)[i]?).map (fun g => g.active) = some true
    ∧ (∀ j g, j ≠ i → formats[j]? = some g → g.show' = true →
        ((onItemClick true i formats)[j]?).map (fun g => g.active) = some false) := by
  have hclear : ∀ (k : Nat) (g : RemoveFormat), formats[k]? = some g → g.show' = true →
      (clearVisible formats)[k]? = some { g with active := false } := by
    intro k g hk hg
    rw [clearVisible, List.getElem?_map, hk]
    simp [hg]
  constructor
  · rw [onItemClick_true_eq, getElem?_modifyNth_self, hclear i f hf hshow]
    rfl
  · intro j g hj hg hgshow
    rw [onItemClick_true_eq, getElem?_modifyNth_ne flipActive hj, hclear j g hg hgshow]
    rfl

/-- C3 (amended) witness: two visible active entries, modifier-click on
the first: the clicked entry ends active, the other is deactivated. -/
theorem onItemClick_alt_net_effect_witness :
    ((onItemClick true 0 [fmt "A" true true, fmt "B" true true])[0]?).map
        (fun g => g.active) = some true
    ∧ ((onItemClick true 0 [fmt "A" true true, fmt "B" true true])[1]?).map
        (fun g => g.active) = some false :=
  ⟨(onItemClick_alt_net_effect [fmt "A" true true, fmt "B" true true] 0
      (fmt "A" true true) rfl rfl).1,
   (onItemClick_alt_net_effect [fmt "A" true true, fmt "B" true true] 0
      (fmt "A" true true) rfl rfl).2 1 (fmt "B" true true) (by decide) rfl rfl⟩

/-- C4: Without the modifier, `onItemClick` flips the clicked entry's
`active` flag and leaves every other entry untouched; e.g. with visible
entries `A(active=false)`, `B(active=true)`, clicking `A` yields
`A(active=true)`, `B(active=true)`. -/
theorem onItemClick_noalt_flips_only_clicked (i : Nat) (formats : List RemoveFormat) :
    (onItemClick false i formats).length = formats.length
    ∧ (onItemClick false i formats)[i]? = (formats[i]?).map flipActive
    ∧ (∀ j, j ≠ i → (onItemClick false i formats)[j]? = formats[j]?)
    ∧ (onItemClick false 0 [fmt "A" true false, fmt "B" true true]).map
        (fun f => (f.key, f.active)) = [("A", true), ("B", true)] := by
  refine ⟨?_, ?_, ?_, by decide⟩
  · rw [onItemClick_false_eq]
    exact modifyNth_length flipActive i formats
  · rw [onItemClick_false_eq]
    exact getElem?_modifyNth_self flipActive i formats
  · intro j hj
    rw [onItemClick_false_eq]
    exact getElem?_modifyNth_ne flipActive hj formats

/-- C4 witness: clicking entry `0` without the modifier in the concrete
two-entry registry leaves entry `1` exactly as it was. -/
theorem onItemClick_noalt_flips_only_clicked_witness :
    (onItemClick false 0 [fmt "A" true false, fmt "B" true true])[1]?
      = ([fmt "A" true false, fmt "B" true true] : List RemoveFormat)[1]? :=
  (onItemClick_noalt_flips_only_clicked 0
    [fmt "A" true false, fmt "B" true true]).2.2.1 1 (by decide)

/-- C10: For both modifier states and any clicked index, `onItemClick`
changes at most `active` flags: the registry's length and order are
unchanged, and every entry's `key`, `name`, `show`, `matcher` and
`surroundElement` fields are unchanged. -/
theorem onItemClick_frame (alt : Bool) (i : Nat) (formats : List RemoveFormat) :
    (onItemClick alt i formats).length = formats.length
    ∧ (onItemClick alt i formats).map frameFields = formats.map frameFields := by
  have hflip : ∀ x, frameFields (flipActive x) = frameFields x := fun x => rfl
  cases alt with
  | false =>
    rw [onItemClick_false_eq]
    exact ⟨modifyNth_length flipActive i formats,
      modifyNth_map_frameFields flipActive hflip i formats⟩
  | true =>
    constructor
    · rw [onItemClick_true_eq, modifyNth_length, clearVisible, List.length_map]
    · rw [onItemClick_true_eq, modifyNth_map_frameFields flipActive hflip]
      exact clearVisible_map_frameFields formats

/-- C5: `activeKeys` and `inactiveKeys` partition the registered entries
exactly by their `active` flag: the two lists are disjoint (given the
spec §3 invariant that keys are unique across the registry), each
registered entry's key lands in exactly the list matching its flag, the
two lists together account for every registered entry exactly once, and
each list preserves the registry's registration order (it is a sublist
of the registry's key sequence). -/
theorem keys_partition (formats : List RemoveFormat)
    (hnodup : (formats.map (fun f => f.key)).Nodup) :
    List.Disjoint (activeKeys formats) (inactiveKeys formats)
    ∧ (activeKeys formats).Sublist (formats.map (fun f => f.key))
    ∧ (inactiveKeys formats).Sublist (formats.map (fun f => f.key))
    ∧ (activeKeys formats ++ inactiveKeys formats).Perm (formats.map (fun f => f.key))
    ∧ ∀ f ∈ formats, (f.key ∈ activeKeys formats ↔ f.active = true)
        ∧ (f.key ∈ inactiveKeys formats ↔ f.active = false) := by
  have hperm : (activeKeys formats ++ inactiveKeys formats).Perm
      (formats.map (fun f => f.key)) := by
    rw [activeKeys, inactiveKeys, ← List.map_append]
    exact (List.filter_append_perm (fun f => f.active) formats).map (fun f => f.key)
  have hdisj : List.Disjoint (activeKeys formats) (inactiveKeys formats) := by
    intro k hka hki
    have hcount : ((activeKeys formats ++ inactiveKeys formats).count k)
        = (formats.map (fun f => f.key)).count k := hperm.count_eq k
    rw [List.count_append] at hcount
    have h1 : 0 < (activeKeys formats).count k := List.count_pos_iff.mpr hka
    have h2 : 0 < (inactiveKeys formats).count k := List.count_pos_iff.mpr hki
    have hle : (formats.map (fun f => f.key)).count k ≤ 1 :=
      List.nodup_iff_count_le_one.mp hnodup k
    omega
  have hactive : ∀ f ∈ formats, f.active = true → f.key ∈ activeKeys formats := by
    intro f hmem hf
    rw [activeKeys]
    exact List.mem_map_of_mem _ (List.mem_filter.mpr ⟨hmem, hf⟩)
  have hinactive : ∀ f ∈ formats, f.active = false → f.key ∈ inactiveKeys formats := by
    intro f hmem hf
    rw [inactiveKeys]
    exact List.mem_map_of_mem _ (List.mem_filter.mpr ⟨hmem, by rw [hf]; rfl⟩)
  refine ⟨hdisj, ?_, ?_, hperm, ?_⟩
  · exact (List.filter_sublist formats).map (fun f => f.key)
  · exact (List.filter_sublist formats).map (fun f => f.key)
  · intro f hmem
    constructor
    · constructor
      · intro hka
        cases hfa : f.active with
        | true => rfl
        | false => exact absurd hka (fun hka => hdisj hka (hinactive f hmem hfa))
      · exact hactive f hmem
    · constructor
      · intro hki
        cases hfa : f.active with
        | false => rfl
        | true => exact absurd hki (fun hki => hdisj (hactive f hmem hfa) hki)
      · exact hinactive f hmem

/-- C5 witness: the partition facts instantiated on a concrete registry
with one active and one inactive entry. -/
theorem keys_partition_witness :
    List.Disjoint (activeKeys [fmt "A" true true, fmt "B" true false])
        (inactiveKeys [fmt "A" true true, fmt "B" true false])
    ∧ ((fmt "A" true true).key ∈ activeKeys [fmt "A" true true, fmt "B" true false]
        ↔ (fmt "A" true true).active = true) :=
  ⟨(keys_partition [fmt "A" true true, fmt "B" true false] (by decide)).1,
   ((keys_partition [fmt "A" true true, fmt "B" true false] (by decide)).2.2.2.2
      (fmt "A" true true) (List.mem_cons_self _ _)).1⟩

/-- C6: the pair of key lists that `remove()` hands to
`surrounder.remove` is computed from the registry state current at the
invocation — for any prior sequence of registrations and mutations it
equals the post-mutation partition; and registering an entry and then
flipping its `active` flag before invoking `remove` yields different
lists than invoking `remove` right after registration (no stale
snapshot). -/
theorem remove_uses_current_state (s : List RemoveFormat) (ops : List Op)
    (f : RemoveFormat) :
    remove (run s ops) = (activeKeys (run s ops), inactiveKeys (run s ops))
    ∧ remove (run [] [Op.register f, Op.setActive 0 (!f.active)])
        ≠ remove (run [] [Op.register f]) := by
  refine ⟨rfl, ?_⟩
  have h1 : run [] [Op.register f] = [f] := by simp [run, applyOp]
  have h2 : run [] [Op.register f, Op.setActive 0 (!f.active)]
      = [{ f with active := !f.active }] := by
    simp [run, applyOp, modifyNth]
  rw [h1, h2]
  cases hfa : f.active <;>
    simp [remove, activeKeys, inactiveKeys, hfa, Prod.ext_iff]

/-- C7: component initialization appends to the registry exactly one
entry with `key = name = "simple spans"`, `show = false`,
`active = true`, leaving previously registered entries unchanged and in
order; when it is the only entry, `activeKeys = ["simple spans"]` and
`inactiveKeys = []`. -/
theorem registerBuiltin_spec (formats : List RemoveFormat) :
    registerBuiltin formats = formats ++ [builtin]
    ∧ builtin.key = "simple spans"
    ∧ builtin.name = "simple spans"
    ∧ builtin.show' = false
    ∧ builtin.active = true
    ∧ (registerBuiltin formats).take formats.length = formats
    ∧ (registerBuiltin formats).length = formats.length + 1
    ∧ activeKeys (registerBuiltin []) = ["simple spans"]
    ∧ inactiveKeys (registerBuiltin []) = [] := by
  refine ⟨rfl, rfl, rfl, rfl, rfl, ?_, by simp [registerBuiltin], by decide, by decide⟩
  rw [registerBuiltin]
  simp [List.take_left]

/-- C8 counterexample: in no registry state does a modifier-held click
on a visible entry set the registry's built-in `"simple spans"` entry
(`show = false`) to `active = false` — refuting the claim that some
invocation of the deselect-all gesture disables it.  The clearing loop
runs over `showFormats` only, which never contains the built-in
entry. -/
theorem builtin_never_cleared_by_alt_click :
    ¬ ∃ (formats : List RemoveFormat) (i j : Nat) (f : RemoveFormat),
        formats[i]? = some f ∧ f.show' = true ∧ formats[j]? = some builtin ∧
        ((onItemClick true i formats)[j]?).map (fun g => g.active) = some false := by
  rintro ⟨formats, i, j, f, hf, hfshow, hj, hres⟩
  have hji : j ≠ i := by
    rintro rfl
    rw [hf] at hj
    have hfb : f = builtin := by injection hj
    rw [hfb] at hfshow
    exact absurd hfshow (by decide)
  rw [onItemClick_true_eq, getElem?_modifyNth_ne flipActive hji,
    clearVisible, List.getElem?_map, hj] at hres
  simp [builtin] at hres

/-- C8 (amended): the built-in `"simple spans"` entry (`show = false`,
initially `active = true`) cannot be deactivated through the per-entry
toggle UI — it is never among `showFormats`, the only entries the
dropdown offers — and no modifier-held deselect-all click on a visible
entry ever changes it either: the gesture clears only visible entries,
so the built-in format's `active` flag is never set to `false` by the
UI. -/
theorem builtin_not_toggleable (formats : List RemoveFormat) (i j : Nat)
    (f : RemoveFormat) (hf : formats[i]? = some f) (hfshow : f.show' = true)
    (hj : formats[j]? = some builtin) :
    builtin ∉ showFormats formats
    ∧ (onItemClick true i formats)[j]? = some builtin := by
  constructor
  · intro hmem
    rw [showFormats] at hmem
    have hs : builtin.show' = true := by
      simpa using (List.mem_filter.mp hmem).2
    exact absurd hs (by decide)
  · have hji : j ≠ i := by
      rintro rfl
      rw [hf] at hj
      have hfb : f = builtin := by injection hj
      rw [hfb] at hfshow
      exact absurd hfshow (by decide)
    rw [onItemClick_true_eq, getElem?_modifyNth_ne flipActive hji,
      clearVisible, List.getElem?_map, hj]
    simp [builtin]

/-- C8 (amended) witness: a registry holding one visible entry and the
built-in entry; a modifier-click on the visible entry leaves the
built-in entry untouched, and the built-in entry is not offered in the
toggle UI. -/
theorem builtin_not_toggleable_witness :
    builtin ∉ showFormats [fmt "A" true true, builtin]
    ∧ (onItemClick true 0 [fmt "A" true true, builtin])[1]? = some builtin :=
  builtin_not_toggleable [fmt "A" true true, builtin] 0 1 (fmt "A" true true)
    rfl rfl rfl

/-- C9: after every emission of the Surrounder's `active` observable the
button's `disabled` flag equals the negation of the latest emitted
value — it is `true` exactly when the emission was `false` — and no
other state is retained: the value after `es ++ [v]` depends only on
`v`. -/
theorem disabled_mirrors_active (emissions : List Bool) (value : Bool) :
    disabledAfter (emissions ++ [value]) = some (!value)
    ∧ (disabledAfter (emissions ++ [value]) = some true ↔ value = false) := by
  have h : disabledAfter (emissions ++ [value]) = some (!value) := by
    rw [disabledAfter, List.foldl_append]
    rfl
  refine ⟨h, ?_⟩
  rw [h]
  cases value <;> simp

end RemoveFormatButton
